import Mathlib

/-!
Verification of the interrupt-dispatch and task-list diagnostics core of the
fs-os kernel, shallowly embedded from src/kernel/idt.c, src/kernel/multitask.c
and src/kernel/include/kernel/idt.h.

Machine integers are modelled as Nat carrying the value of the C object
(uint16_t / uint32_t); truncating casts and masks appear explicitly where the
source has them.  The `panic_line` call (which halts and never returns) is
modelled by returning `none`.
-/

/-- Size of the interrupt descriptor table: `#define IDT_SZ 256`. -/
def IDT_SZ : Nat := 256

/-- Present bit of the type field: `#define P_BIT (1 << 7)`. -/
def P_BIT : Nat := 1 <<< 7

/-- Descriptor privilege level used for all gates: `#define DPL_NONE 0`. -/
def DPL_NONE : Nat := 0

/-- Gate type used by the kernel: `IDT_GATE_32BIT_INT = 0xE`. -/
def IDT_GATE_32BIT_INT : Nat := 0xE

/-- Command I/O port of the master PIC (0x20). -/
def PIC_MASTER_CMD : Nat := 0x20

/-- Data I/O port of the master PIC (0x21). -/
def PIC_MASTER_DATA : Nat := 0x21

/-- Command I/O port of the slave PIC (0xA0). -/
def PIC_SLAVE_CMD : Nat := 0xA0

/-- Data I/O port of the slave PIC (0xA1). -/
def PIC_SLAVE_DATA : Nat := 0xA1

/-- ICW4 (not) needed flag (0x01). -/
def ICW1_ICW4 : Nat := 0x01

/-- Initialization flag, required (0x10). -/
def ICW1_INIT : Nat := 0x10

/-- 8086/88 mode flag for ICW4 (0x01). -/
def ICW4_8086 : Nat := 0x01

/-- One entry of the interrupt descriptor table, `idt_entry` from idt.h.
Fields in declaration order: `offset_l`, `selector`, `zero`, `type`,
`offset_h`; each holds the Nat value of the corresponding uint16/uint8. -/
structure IdtEntry where
  offset_l : Nat
  selector : Nat
  zero : Nat
  type : Nat
  offset_h : Nat
deriving DecidableEq

/-- The vector table: entry for each vector number (only indices < 256 are
meaningful, matching `idt_entry idt[IDT_SZ]`). -/
def IdtTable : Type := Nat → IdtEntry

/-- The all-zero entry produced by the initializer `idt[IDT_SZ] = { 0 }`. -/
def zeroEntry : IdtEntry := ⟨0, 0, 0, 0, 0⟩

/-- Initial state of the table: every entry zeroed. -/
def idt_initial : IdtTable := fun _ => zeroEntry

/-- The entry value written by `register_isr` for handler address `func`:
selector 0x8, split offsets, type `P_BIT | DPL_NONE | IDT_GATE_32BIT_INT`,
reserved byte 0. -/
def mkEntry (func : Nat) : IdtEntry :=
  ⟨func &&& 0xFFFF, 0x8, 0, P_BIT ||| DPL_NONE ||| IDT_GATE_32BIT_INT,
   (func >>> 16) &&& 0xFFFF⟩

/-- Embedding of `register_isr(uint16_t idx, uint32_t func)`:
if `idx >= IDT_SZ` it panics (modelled `none`, no write happens), otherwise
it stores `mkEntry func` at index `idx` and leaves every other entry alone. -/
def register_isr (idx : Nat) (func : Nat) (idt : IdtTable) : Option IdtTable :=
  if IDT_SZ ≤ idx then none
  else some (fun j => if j = idx then mkEntry func else idt j)

theorem and_ffff_eq_mod (x : Nat) : x &&& 0xFFFF = x % 2 ^ 16 := by
  have h : (0xFFFF : Nat) = 2 ^ 16 - 1 := rfl
  rw [h, Nat.and_pow_two_sub_one_eq_mod]

/-- C3: for every valid index and every 32-bit handler address, the stored
descriptor's split offset fields recombine to the exact address:
`offset_h * 2^16 + offset_l = addr`. -/
theorem register_isr_offset_roundtrip (idx func : Nat) (t : IdtTable)
    (hidx : idx < 256) (hfunc : func < 2 ^ 32) :
    ∃ t', register_isr idx func t = some t' ∧
      (t' idx).offset_h * 2 ^ 16 + (t' idx).offset_l = func := by
  refine ⟨fun j => if j = idx then mkEntry func else t j, ?_, ?_⟩
  · rw [register_isr, if_neg (by simp [IDT_SZ]; omega)]
  · simp only [if_pos rfl, if_true]
    simp only [mkEntry, and_ffff_eq_mod, Nat.shiftRight_eq_div_pow]
    omega

/-- Witness for C3 at index 5 and address 0x12345678. -/
theorem register_isr_offset_roundtrip_witness :
    ∃ t', register_isr 5 0x12345678 idt_initial = some t' ∧
      (t' 5).offset_h * 2 ^ 16 + (t' 5).offset_l = 0x12345678 :=
  register_isr_offset_roundtrip 5 0x12345678 idt_initial (by decide) (by decide)

/-- C5: with an out-of-range index (≥ 256 = IDT_SZ), `register_isr` hits the
`panic_line` branch before any write: the call never returns normally and the
table is untouched, modelled by the `none` result. -/
theorem register_isr_out_of_range (idx func : Nat) (t : IdtTable)
    (hidx : 256 ≤ idx) :
    register_isr idx func t = none := by
  rw [register_isr, if_pos]
  simpa [IDT_SZ] using hidx

/-- Witness for C5 at index 300. -/
theorem register_isr_out_of_range_witness :
    register_isr 300 17 idt_initial = none :=
  register_isr_out_of_range 300 17 idt_initial (by decide)

/-- C8: for every valid index the stored descriptor's non-offset fields hold
the fixed kernel-interrupt-gate values: selector 0x8, type byte 0x8E
(present bit set, DPL 0, gate kind 0xE = 32-bit interrupt gate), reserved
byte 0. -/
theorem register_isr_fixed_fields (idx func : Nat) (t : IdtTable)
    (hidx : idx < 256) :
    ∃ t', register_isr idx func t = some t' ∧
      (t' idx).selector = 0x8 ∧
      (t' idx).type = 0x8E ∧
      (t' idx).type.testBit 7 = true ∧
      (t' idx).type / 2 ^ 5 % 2 ^ 2 = 0 ∧
      (t' idx).type % 2 ^ 5 = 0xE ∧
      (t' idx).zero = 0 := by
  refine ⟨fun j => if j = idx then mkEntry func else t j, ?_, ?_⟩
  · rw [register_isr, if_neg (by simp [IDT_SZ]; omega)]
  · simp only [if_pos rfl, if_true]
    have ht : (mkEntry func).type = 0x8E := rfl
    exact ⟨rfl, ht, by rw [ht]; decide, by rw [ht]; decide, by rw [ht]; decide,
      rfl⟩

/-- Witness for C8 at index 33. -/
theorem register_isr_fixed_fields_witness :
    ∃ t', register_isr 33 99 idt_initial = some t' ∧
      (t' 33).selector = 0x8 ∧
      (t' 33).type = 0x8E ∧
      (t' 33).type.testBit 7 = true ∧
      (t' 33).type / 2 ^ 5 % 2 ^ 2 = 0 ∧
      (t' 33).type % 2 ^ 5 = 0xE ∧
      (t' 33).zero = 0 :=
  register_isr_fixed_fields 33 99 idt_initial (by decide)

/-- C9: for every valid index, `register_isr` mutates only the entry at that
index; every other entry keeps exactly its previous value.  (The embedded
function takes and returns only the table, reflecting that the C function
touches no state besides `idt`.) -/
theorem register_isr_frame (idx func : Nat) (t : IdtTable)
    (hidx : idx < 256) :
    ∃ t', register_isr idx func t = some t' ∧
      (∀ j, j ≠ idx → t' j = t j) ∧ t' idx = mkEntry func := by
  refine ⟨fun j => if j = idx then mkEntry func else t j, ?_, ?_, ?_⟩
  · rw [register_isr, if_neg (by simp [IDT_SZ]; omega)]
  · intro j hj
    simp only [if_neg hj]
  · simp only [if_pos rfl, if_true]

/-- Witness for C9 at index 3, checking entry 5 is untouched. -/
theorem register_isr_frame_witness :
    ∃ t', register_isr 3 77 idt_initial = some t' ∧
      (∀ j, j ≠ 3 → t' j = idt_initial j) ∧ t' 3 = mkEntry 77 :=
  register_isr_frame 3 77 idt_initial (by decide)

/-- Observable actions of the boot sequence, in program order: a write of the
descriptor record, an `io_outb(port, value)`, a table write performed by
`register_isr(idx, func)`, the `idt_load` call, and the final `sti`. -/
inductive Event where
  | descrSet : Nat → Event
  | outb : Nat → Nat → Event
  | isrWrite : Nat → Nat → Event
  | load : Event
  | sti : Event
deriving DecidableEq

/-- Embedding of `pic_remap`: the exact sequence of `io_outb` calls it makes,
in program order. -/
def pic_remap_trace : List Event :=
  [Event.outb PIC_MASTER_CMD (ICW1_INIT ||| ICW1_ICW4),
   Event.outb PIC_SLAVE_CMD (ICW1_INIT ||| ICW1_ICW4),
   Event.outb PIC_MASTER_DATA 32,
   Event.outb PIC_SLAVE_DATA 40,
   Event.outb PIC_MASTER_DATA 4,
   Event.outb PIC_SLAVE_DATA 2,
   Event.outb PIC_MASTER_DATA ICW4_8086,
   Event.outb PIC_SLAVE_DATA ICW4_8086,
   Event.outb PIC_MASTER_DATA 0,
   Event.outb PIC_SLAVE_DATA 0]

/-- Value of the first write to the given port in a trace.  After the ICW1
initialization word on the command port, the first data-port write is ICW2,
the controller's vector base. -/
def firstWriteTo (port : Nat) : List Event → Option Nat
  | [] => none
  | Event.outb p v :: rest => if p = port then some v else firstWriteTo port rest
  | _ :: rest => firstWriteTo port rest

/-- C6: `pic_remap` emits the strict ordered 4-step handshake — ICW1
(INIT|ICW4 = 0x11) to both command ports, vector bases 32 (master) and 40
(slave), cascade words 4 and 2, then 8086-mode words — and the vector bases it
programs put the master's eight outputs in 32–39 and the slave's in 40–47,
disjoint from CPU exception vectors 0–31 and from each other. -/
theorem pic_remap_handshake :
    pic_remap_trace.take 8 =
      [Event.outb 0x20 0x11, Event.outb 0xA0 0x11,
       Event.outb 0x21 32, Event.outb 0xA1 40,
       Event.outb 0x21 4, Event.outb 0xA1 2,
       Event.outb 0x21 1, Event.outb 0xA1 1] ∧
    firstWriteTo PIC_MASTER_DATA pic_remap_trace = some 32 ∧
    firstWriteTo PIC_SLAVE_DATA pic_remap_trace = some 40 ∧
    (∀ irq : Fin 8,
      32 ≤ 32 + irq.val ∧ 32 + irq.val ≤ 39 ∧
      40 ≤ 40 + irq.val ∧ 40 + irq.val ≤ 47 ∧
      31 < 32 + irq.val ∧ 31 < 40 + irq.val ∧
      (∀ jrq : Fin 8, 32 + irq.val ≠ 40 + jrq.val)) := by
  refine ⟨rfl, rfl, rfl, ?_⟩
  decide

/-- C10: after the 4-word handshake, `pic_remap` always finishes with a fifth
pair of writes storing value 0 to both data ports (the interrupt-mask
registers), so every IRQ line on both controllers is left unmasked (every mask
bit clear). -/
theorem pic_remap_unmask :
    pic_remap_trace.drop 8 =
      [Event.outb PIC_MASTER_DATA 0, Event.outb PIC_SLAVE_DATA 0] ∧
    pic_remap_trace.length = 10 ∧
    (∀ i : Fin 8, Nat.testBit 0 i.val = false) := by
  refine ⟨rfl, rfl, ?_⟩
  decide

/-- Addresses of the externally defined handler entry points that `idt_init`
registers (defined in src/kernel/idt.asm, outside the C sources): the
`exc_i` exception handlers, `irq_pit`, `irq_kb`, and the two shared default
handlers.  Each address is the uint32 value of the casted function pointer. -/
structure Handlers where
  exc : Nat → Nat
  irq_pit : Nat
  irq_kb : Nat
  irq_default_master : Nat
  irq_default_slave : Nat

/-- The sequence of `register_isr(idx, func)` calls made by `idt_init`, in
program order: exception vectors 0–8, 10–20, 30; IRQ vectors 32 (PIT) and 33
(keyboard); the `for (i = 34; i < 40; ...)` loop of master defaults; the
`for (i = 40; i < 48; ...)` loop of slave defaults. -/
def idt_init_regs (h : Handlers) : List (Nat × Nat) :=
  [(0, h.exc 0), (1, h.exc 1), (2, h.exc 2), (3, h.exc 3), (4, h.exc 4),
   (5, h.exc 5), (6, h.exc 6), (7, h.exc 7), (8, h.exc 8),
   (10, h.exc 10), (11, h.exc 11), (12, h.exc 12), (13, h.exc 13),
   (14, h.exc 14), (15, h.exc 15), (16, h.exc 16), (17, h.exc 17),
   (18, h.exc 18), (19, h.exc 19), (20, h.exc 20), (30, h.exc 30),
   (32, h.irq_pit), (33, h.irq_kb),
   (34, h.irq_default_master), (35, h.irq_default_master),
   (36, h.irq_default_master), (37, h.irq_default_master),
   (38, h.irq_default_master), (39, h.irq_default_master),
   (40, h.irq_default_slave), (41, h.irq_default_slave),
   (42, h.irq_default_slave), (43, h.irq_default_slave),
   (44, h.irq_default_slave), (45, h.irq_default_slave),
   (46, h.irq_default_slave), (47, h.irq_default_slave)]

/-- Runs a sequence of `register_isr` calls on a table, collecting the table
writes as events; a panicking call aborts the whole run (`none`). -/
def run_regs (regs : List (Nat × Nat)) (t : IdtTable) :
    Option (IdtTable × List Event) :=
  match regs with
  | [] => some (t, [])
  | (i, f) :: rest =>
    match register_isr i f t with
    | none => none
    | some t' =>
      (run_regs rest t').map (fun r => (r.1, Event.isrWrite i f :: r.2))

/-- The last handler address a call sequence assigns to vector `j`, if any. -/
def lastAssign (regs : List (Nat × Nat)) (j : Nat) : Option Nat :=
  regs.foldl (fun acc p => if p.1 = j then some p.2 else acc) none

/-- Value of `descriptor.limit`: `(IDT_SZ * sizeof(idt_entry)) - 1` with the
packed 8-byte entry. -/
def descriptor_limit : Nat := IDT_SZ * 8 - 1

/-- Embedding of `idt_init`: sets the descriptor record, runs `pic_remap`,
performs all `register_isr` calls, then `idt_load` and `sti`; yields the final
table and the full trace of observable actions in program order. -/
def idt_init_m (h : Handlers) : Option (IdtTable × List Event) :=
  match run_regs (idt_init_regs h) idt_initial with
  | none => none
  | some (t, es) =>
    some (t, Event.descrSet descriptor_limit ::
      (pic_remap_trace ++ es ++ [Event.load, Event.sti]))

/-- The vector table produced by `idt_init`. -/
def idt_init_table (h : Handlers) : Option IdtTable :=
  (idt_init_m h).map Prod.fst

/-- The trace of observable actions of `idt_init`, in program order. -/
def idt_init_trace (h : Handlers) : Option (List Event) :=
  (idt_init_m h).map Prod.snd

theorem foldl_lastAssign (j : Nat) (regs : List (Nat × Nat)) :
    ∀ a : Option Nat,
      regs.foldl (fun acc p => if p.1 = j then some p.2 else acc) a =
        (lastAssign regs j).elim a some := by
  induction regs with
  | nil => intro a; rfl
  | cons q rest ih =>
    intro a
    rw [List.foldl_cons, ih]
    have h2 : lastAssign (q :: rest) j =
        (lastAssign rest j).elim (if q.1 = j then some q.2 else none) some := by
      rw [lastAssign, List.foldl_cons]
      exact ih _
    rw [h2]
    cases hlr : lastAssign rest j with
    | none =>
      by_cases hq : q.1 = j
      · simp [hq]
      · simp [hq]
    | some g => simp

theorem lastAssign_eq_none (regs : List (Nat × Nat)) (j : Nat)
    (hnone : ∀ p ∈ regs, p.1 ≠ j) : lastAssign regs j = none := by
  induction regs with
  | nil => rfl
  | cons q rest ih =>
    rw [lastAssign, List.foldl_cons,
      if_neg (hnone q (List.mem_cons_self q rest))]
    exact ih (fun p hp => hnone p (List.mem_cons_of_mem q hp))

theorem run_regs_ok (regs : List (Nat × Nat)) : ∀ t : IdtTable,
    (∀ p ∈ regs, p.1 < 256) →
    ∃ t', run_regs regs t =
        some (t', regs.map (fun p => Event.isrWrite p.1 p.2)) ∧
      ∀ j, t' j = (lastAssign regs j).elim (t j) mkEntry := by
  induction regs with
  | nil =>
    intro t _
    exact ⟨t, rfl, fun j => rfl⟩
  | cons q rest ih =>
    intro t hall
    obtain ⟨i, f⟩ := q
    have hi : i < 256 := hall (i, f) (List.mem_cons_self _ _)
    obtain ⟨t', hrun, hlook⟩ :=
      ih (fun j => if j = i then mkEntry f else t j)
        (fun p hp => hall p (List.mem_cons_of_mem _ hp))
    have hreg : register_isr i f t =
        some (fun j => if j = i then mkEntry f else t j) := by
      rw [register_isr, if_neg (by simp [IDT_SZ]; omega)]
    refine ⟨t', ?_, ?_⟩
    · simp only [run_regs, hreg, hrun, Option.map_some', List.map_cons]
    · intro j
      rw [hlook j]
      have h2 : lastAssign ((i, f) :: rest) j =
          (lastAssign rest j).elim (if i = j then some f else none) some := by
        rw [lastAssign, List.foldl_cons]
        exact foldl_lastAssign j rest _
      rw [h2]
      cases hlr : lastAssign rest j with
      | none =>
        by_cases hq : i = j
        · simp [hq]
        · simp [hq, Ne.symm hq]
      | some g => simp

/-- The exception vector numbers `idt_init` assigns explicitly. -/
def excIndices : List Nat :=
  [0, 1, 2, 3, 4, 5, 6, 7, 8, 10, 11, 12, 13, 14, 15, 16, 17, 18, 19, 20, 30]

/-- Every vector number that receives any handler during `idt_init`. -/
def assignedIndices : List Nat :=
  excIndices ++ [32, 33, 34, 35, 36, 37, 38, 39, 40, 41, 42, 43, 44, 45, 46, 47]

theorem excIndices_iff (i : Nat) :
    i ∈ excIndices ↔ i ≤ 8 ∨ (10 ≤ i ∧ i ≤ 20) ∨ i = 30 := by
  simp only [excIndices, List.mem_cons, List.not_mem_nil, or_false]
  omega

theorem idt_init_regs_bounds_all (h : Handlers) :
    (idt_init_regs h).all (fun p => decide (p.1 < 256)) = true := rfl

theorem idt_init_regs_bounds (h : Handlers) :
    ∀ p ∈ idt_init_regs h, p.1 < 256 := by
  have hall := idt_init_regs_bounds_all h
  rw [List.all_eq_true] at hall
  intro p hp
  exact of_decide_eq_true (hall p hp)

theorem idt_init_regs_assigned_all (h : Handlers) :
    (idt_init_regs h).all (fun p => decide (p.1 ∈ assignedIndices)) = true := rfl

theorem idt_init_regs_assigned (h : Handlers) :
    ∀ p ∈ idt_init_regs h, p.1 ∈ assignedIndices := by
  have hall := idt_init_regs_assigned_all h
  rw [List.all_eq_true] at hall
  intro p hp
  exact of_decide_eq_true (hall p hp)

/-- C4: the boot build sequence assigns vectors exactly per the published
table: every vector in 0–8, 10–20, 30 gets its per-number exception handler
`exc_i`; vector 32 gets the PIT (timer) handler; vector 33 the keyboard
handler; each of 34–39 the shared master default handler; each of 40–47 the
shared slave default handler. -/
theorem idt_init_vector_assignment (h : Handlers) :
    ∃ T, idt_init_table h = some T ∧
      (∀ i : Nat, i ≤ 8 ∨ (10 ≤ i ∧ i ≤ 20) ∨ i = 30 →
        T i = mkEntry (h.exc i)) ∧
      T 32 = mkEntry h.irq_pit ∧
      T 33 = mkEntry h.irq_kb ∧
      (∀ i : Nat, 34 ≤ i → i ≤ 39 → T i = mkEntry h.irq_default_master) ∧
      (∀ i : Nat, 40 ≤ i → i ≤ 47 → T i = mkEntry h.irq_default_slave) := by
  obtain ⟨t', hrun, hlook⟩ :=
    run_regs_ok (idt_init_regs h) idt_initial (idt_init_regs_bounds h)
  refine ⟨t', ?_, ?_, ?_, ?_, ?_, ?_⟩
  · rw [idt_init_table, idt_init_m, hrun]
    rfl
  · intro i hi
    have hmem : i ∈ excIndices := (excIndices_iff i).mpr hi
    fin_cases hmem <;> (rw [hlook]; rfl)
  · rw [hlook]; rfl
  · rw [hlook]; rfl
  · intro i h34 h39
    have hmem : i ∈ [34, 35, 36, 37, 38, 39] := by
      simp only [List.mem_cons, List.not_mem_nil, or_false]
      omega
    fin_cases hmem <;> (rw [hlook]; rfl)
  · intro i h40 h47
    have hmem : i ∈ [40, 41, 42, 43, 44, 45, 46, 47] := by
      simp only [List.mem_cons, List.not_mem_nil, or_false]
      omega
    fin_cases hmem <;> (rw [hlook]; rfl)

/-- A concrete assignment of handler addresses, used to evaluate the boot
sequence on explicit inputs. -/
def h0 : Handlers := ⟨fun i => 0x1000 + 16 * i, 0x2000, 0x2010, 0x2020, 0x2030⟩

/-- Witness for C4: the published table rows evaluated at the concrete
handler assignment `h0`, instantiating each bounded quantifier. -/
theorem idt_init_vector_assignment_witness :
    ∃ T, idt_init_table h0 = some T ∧
      T 0 = mkEntry (h0.exc 0) ∧ T 20 = mkEntry (h0.exc 20) ∧
      T 30 = mkEntry (h0.exc 30) ∧ T 32 = mkEntry h0.irq_pit ∧
      T 33 = mkEntry h0.irq_kb ∧ T 34 = mkEntry h0.irq_default_master ∧
      T 47 = mkEntry h0.irq_default_slave := by
  obtain ⟨T, h1, h2, h3, h4, h5, h6⟩ := idt_init_vector_assignment h0
  exact ⟨T, h1, h2 0 (by omega), h2 20 (by omega), h2 30 (by omega), h3, h4,
    h5 34 (by omega) (by omega), h6 47 (by omega) (by omega)⟩

/-- C1 counterexample data: after `idt_init` with the concrete handler
addresses `h0`, vector 9 (skipped between `exc_8` and `exc_10`) and vector 48
(first vector past the slave PIC range) still hold the all-zero record, whose
present bit is clear — they are not pointed at any default handler. -/
theorem idt_init_gap_counterexample :
    ∃ T, idt_init_table h0 = some T ∧ T 9 = zeroEntry ∧
      (T 9).type.testBit 7 = false ∧ T 48 = zeroEntry := by
  obtain ⟨t', hrun, hlook⟩ :=
    run_regs_ok (idt_init_regs h0) idt_initial (idt_init_regs_bounds h0)
  refine ⟨t', ?_, ?_, ?_, ?_⟩
  · rw [idt_init_table, idt_init_m, hrun]
    rfl
  · rw [hlook]; rfl
  · rw [hlook]; rfl
  · rw [hlook]; rfl

theorem mkEntry_present (x : Nat) : (mkEntry x).type.testBit 7 = true := by
  have ht : (mkEntry x).type = 0x8E := rfl
  rw [ht]
  decide

/-- C1 amended: after `idt_init`, the only unassigned vector numbers that get
a shared default handler are the remapped IRQ vectors — 34–39 (master default)
and 40–47 (slave default), whose descriptors are well formed with the present
bit set; every other vector that is not explicitly assigned (9, 21–29, 31 and
48–255) is left exactly as the all-zero record of the initializer. -/
theorem idt_init_gaps_amended (h : Handlers) :
    ∃ T, idt_init_table h = some T ∧
      (∀ i : Nat, 34 ≤ i → i ≤ 39 →
        T i = mkEntry h.irq_default_master ∧ (T i).type.testBit 7 = true) ∧
      (∀ i : Nat, 40 ≤ i → i ≤ 47 →
        T i = mkEntry h.irq_default_slave ∧ (T i).type.testBit 7 = true) ∧
      (∀ i : Nat, i < 256 →
        (i = 9 ∨ (21 ≤ i ∧ i ≤ 29) ∨ i = 31 ∨ 48 ≤ i) → T i = zeroEntry) := by
  obtain ⟨t', hrun, hlook⟩ :=
    run_regs_ok (idt_init_regs h) idt_initial (idt_init_regs_bounds h)
  refine ⟨t', ?_, ?_, ?_, ?_⟩
  · rw [idt_init_table, idt_init_m, hrun]
    rfl
  · intro i h34 h39
    have hmem : i ∈ [34, 35, 36, 37, 38, 39] := by
      simp only [List.mem_cons, List.not_mem_nil, or_false]
      omega
    fin_cases hmem <;> (rw [hlook]; exact ⟨rfl, mkEntry_present _⟩)
  · intro i h40 h47
    have hmem : i ∈ [40, 41, 42, 43, 44, 45, 46, 47] := by
      simp only [List.mem_cons, List.not_mem_nil, or_false]
      omega
    fin_cases hmem <;> (rw [hlook]; exact ⟨rfl, mkEntry_present _⟩)
  · intro i h256 hu
    have hnone : ∀ p ∈ idt_init_regs h, p.1 ≠ i := by
      intro p hp
      have hmem := idt_init_regs_assigned h p hp
      simp only [assignedIndices, excIndices, List.mem_append, List.mem_cons,
        List.not_mem_nil, or_false] at hmem
      omega
    rw [hlook, lastAssign_eq_none _ _ hnone]
    rfl

/-- Witness for C1's amended statement at the concrete handler assignment
`h0`, instantiating each bounded quantifier. -/
theorem idt_init_gaps_amended_witness :
    ∃ T, idt_init_table h0 = some T ∧
      T 35 = mkEntry h0.irq_default_master ∧
      T 47 = mkEntry h0.irq_default_slave ∧
      T 100 = zeroEntry := by
  obtain ⟨T, h1, h2, h3, h4⟩ := idt_init_gaps_amended h0
  exact ⟨T, h1, (h2 35 (by omega) (by omega)).1, (h3 47 (by omega) (by omega)).1,
    h4 100 (by omega) (by omega)⟩

/-- Recognizes a PIC port write (`io_outb`) event. -/
def isOutb : Event → Bool
  | Event.outb _ _ => true
  | _ => false

/-- Recognizes a vector-table write event. -/
def isIsrWrite : Event → Bool
  | Event.isrWrite _ _ => true
  | _ => false

/-- Recognizes the `idt_load` event. -/
def isLoad : Event → Bool
  | Event.load => true
  | _ => false

/-- Recognizes the `sti` event. -/
def isSti : Event → Bool
  | Event.sti => true
  | _ => false

/-- In trace `l`, every event satisfying `P` occurs strictly before every
event satisfying `Q`. -/
def precedes (P Q : Event → Bool) (l : List Event) : Prop :=
  ∀ i j : Fin l.length, P (l.get i) = true → Q (l.get j) = true → i.val < j.val

theorem precedes_append (P Q : Event → Bool) (l₁ l₂ : List Event)
    (h₁ : ∀ e ∈ l₁, Q e = false) (h₂ : ∀ e ∈ l₂, P e = false) :
    precedes P Q (l₁ ++ l₂) := by
  intro i j hP hQ
  have hiL : i.val < l₁.length := by
    by_contra hge
    push_neg at hge
    have hmem : (l₁ ++ l₂).get i ∈ l₂ := by
      rw [List.get_eq_getElem, List.getElem_append_right hge]
      exact List.getElem_mem _
    rw [h₂ _ hmem] at hP
    exact Bool.false_ne_true hP
  have hjR : l₁.length ≤ j.val := by
    by_contra hlt
    push_neg at hlt
    have hmem : (l₁ ++ l₂).get j ∈ l₁ := by
      rw [List.get_eq_getElem, List.getElem_append_left hlt]
      exact List.getElem_mem _
    rw [h₁ _ hmem] at hQ
    exact Bool.false_ne_true hQ
  omega

/-- C7 counterexample: in the trace of `idt_init` with the concrete handler
assignment `h0`, the vector-table writes do NOT all precede the controller
(PIC) port writes: `pic_remap` runs first, so an `io_outb` event (index 1)
comes before the first `register_isr` write (index 11). -/
theorem idt_init_order_counterexample :
    ∃ tr, idt_init_trace h0 = some tr ∧ ¬ precedes isIsrWrite isOutb tr := by
  obtain ⟨t', hrun, _⟩ :=
    run_regs_ok (idt_init_regs h0) idt_initial (idt_init_regs_bounds h0)
  refine ⟨Event.descrSet descriptor_limit ::
    (pic_remap_trace ++
      (idt_init_regs h0).map (fun p => Event.isrWrite p.1 p.2) ++
      [Event.load, Event.sti]), ?_, ?_⟩
  · rw [idt_init_trace, idt_init_m, hrun]
    rfl
  · intro hp
    have h11 := hp ⟨11, by decide⟩ ⟨1, by decide⟩ (by decide) (by decide)
    exact absurd h11 (by decide)

/-- C7 amended: `idt_init` performs its steps in this order: the controller
(PIC) port writes all happen before any vector-table entry is written, the
descriptor load is issued after all table writes, and interrupt delivery
(`sti`) is the final step, after the load. -/
theorem idt_init_order (h : Handlers) :
    ∃ tr, idt_init_trace h = some tr ∧
      precedes isOutb isIsrWrite tr ∧
      precedes isIsrWrite isLoad tr ∧
      precedes isLoad isSti tr ∧
      tr.getLast? = some Event.sti := by
  obtain ⟨t', hrun, _⟩ :=
    run_regs_ok (idt_init_regs h) idt_initial (idt_init_regs_bounds h)
  refine ⟨Event.descrSet descriptor_limit ::
    (pic_remap_trace ++
      (idt_init_regs h).map (fun p => Event.isrWrite p.1 p.2) ++
      [Event.load, Event.sti]), ?_, ?_, ?_, ?_, ?_⟩
  · rw [idt_init_trace, idt_init_m, hrun]
    rfl
  · have hshape : Event.descrSet descriptor_limit ::
        (pic_remap_trace ++
          (idt_init_regs h).map (fun p => Event.isrWrite p.1 p.2) ++
          [Event.load, Event.sti]) =
        (Event.descrSet descriptor_limit :: pic_remap_trace) ++
          ((idt_init_regs h).map (fun p => Event.isrWrite p.1 p.2) ++
            [Event.load, Event.sti]) := by
      simp [List.cons_append, List.append_assoc]
    rw [hshape]
    refine precedes_append _ _ _ _ ?_ ?_
    · intro e he
      fin_cases he <;> rfl
    · intro e he
      rcases List.mem_append.mp he with he | he
      · obtain ⟨p, _, rfl⟩ := List.mem_map.mp he
        rfl
      · fin_cases he <;> rfl
  · have hshape : Event.descrSet descriptor_limit ::
        (pic_remap_trace ++
          (idt_init_regs h).map (fun p => Event.isrWrite p.1 p.2) ++
          [Event.load, Event.sti]) =
        (Event.descrSet descriptor_limit :: pic_remap_trace ++
          (idt_init_regs h).map (fun p => Event.isrWrite p.1 p.2)) ++
          [Event.load, Event.sti] := by
      simp [List.cons_append, List.append_assoc]
    rw [hshape]
    refine precedes_append _ _ _ _ ?_ ?_
    · intro e he
      rcases List.mem_append.mp he with he | he
      · fin_cases he <;> rfl
      · obtain ⟨p, _, rfl⟩ := List.mem_map.mp he
        rfl
    · intro e he
      fin_cases he <;> rfl
  · have hshape : Event.descrSet descriptor_limit ::
        (pic_remap_trace ++
          (idt_init_regs h).map (fun p => Event.isrWrite p.1 p.2) ++
          [Event.load, Event.sti]) =
        ((Event.descrSet descriptor_limit :: pic_remap_trace ++
          (idt_init_regs h).map (fun p => Event.isrWrite p.1 p.2)) ++
          [Event.load]) ++ [Event.sti] := by
      simp [List.cons_append, List.append_assoc]
    rw [hshape]
    refine precedes_append _ _ _ _ ?_ ?_
    · intro e he
      rcases List.mem_append.mp he with he | he
      · rcases List.mem_append.mp he with he | he
        · fin_cases he <;> rfl
        · obtain ⟨p, _, rfl⟩ := List.mem_map.mp he
          rfl
      · fin_cases he <;> rfl
    · intro e he
      fin_cases he <;> rfl
  · have hshape : Event.descrSet descriptor_limit ::
        (pic_remap_trace ++
          (idt_init_regs h).map (fun p => Event.isrWrite p.1 p.2) ++
          [Event.load, Event.sti]) =
        ((Event.descrSet descriptor_limit :: pic_remap_trace ++
          (idt_init_regs h).map (fun p => Event.isrWrite p.1 p.2)) ++
          [Event.load]) ++ [Event.sti] := by
      simp [List.cons_append, List.append_assoc]
    rw [hshape]
    exact List.getLast?_concat _

/-- Witness for C7's amended ordering statement at the concrete handler
assignment `h0`. -/
theorem idt_init_order_witness :
    ∃ tr, idt_init_trace h0 = some tr ∧
      precedes isOutb isIsrWrite tr ∧ tr.getLast? = some Event.sti := by
  obtain ⟨tr, h1, h2, _, _, h5⟩ := idt_init_order h0
  exact ⟨tr, h1, h2, h5⟩

/-- A task context record (`Ctx`), with the fields `dump_task_list` reads:
`name` (modelled as a numeric label id), `prev`/`next` links (addresses of
other contexts), `stack`, `esp`, `cr3` and `state`. -/
structure Ctx where
  name : Nat
  prev : Nat
  next : Nat
  stack : Nat
  esp : Nat
  cr3 : Nat
  state : Nat
deriving DecidableEq

/-- The `for` loop of `dump_task_list`: starting with `cur_ctx = first`,
while `cur_ctx->next != first_ctx` it prints `cur_ctx` and advances to
`cur_ctx->next`.  Returns the addresses printed by the loop, in order; `fuel`
bounds the number of iterations modelled (`none` = the loop did not finish
within `fuel` steps). -/
def dumpLoop (heap : Nat → Ctx) (first : Nat) : Nat → Nat → Option (List Nat)
  | _, 0 => none
  | cur, fuel + 1 =>
    if (heap cur).next = first then some []
    else (dumpLoop heap first (heap cur).next fuel).map (fun l => cur :: l)

/-- Embedding of `dump_task_list`: prints one line for `mt_current_task`
first (the unconditional printf), then runs the loop.  The result is the
list of context addresses printed, one per output line after the header. -/
def dump_task_list (heap : Nat → Ctx) (fuel : Nat)
    (mt_current_task : Nat) : Option (List Nat) :=
  (dumpLoop heap mt_current_task mt_current_task fuel).map
    (fun l => mt_current_task :: l)

/-- A well-formed circular task list with two live tasks, at addresses 0
(the current task) and 1: each is the other's `next` and `prev`. -/
def heap2 : Nat → Ctx := fun a =>
  if a = 0 then ⟨100, 1, 1, 4096, 4096, 0, 0⟩ else ⟨101, 0, 0, 8192, 8192, 0, 0⟩

/-- C2 fails on the code: on the two-task circular list `heap2` with current
task 0, `dump_task_list` prints the rows `[0, 0]` — the current task's line
twice and no line at all for the other live task 1 — instead of one line per
live task.  (The loop restarts at `mt_current_task`, which the unconditional
printf already printed, and stops one node early.) -/
theorem dump_task_list_bug :
    dump_task_list heap2 8 0 = some [0, 0] ∧
    List.count 0 [0, 0] = 2 ∧ (1 : Nat) ∉ [0, 0] := by
  refine ⟨rfl, rfl, by decide⟩
